import Mathlib

/-!
Verification of the `few` crate: a `Few<T>` enum holding zero, one, or two
values of type `T`, with shape predicates, a membership test, `map`,
conversions, a derived shape-first ordering, and a consuming
forward/backward iterator (`next` / `next_back`) that shrinks the shape on
each production step.  Each definition is a direct embedding of the
corresponding item of `src/lib.rs`; stateful iterator methods are embedded
as functions returning the produced value together with the updated state.
-/

/-- A type which may contain zero, one, or two of a value
(`pub enum Few<T>` of `src/lib.rs`). -/
inductive Few (T : Type) : Type where
| Zero : Few T
| One : T → Few T
| Two : T → T → Few T
deriving DecidableEq, Repr

namespace Few

variable {T U : Type}

/-- `Few::is_zero`. -/
def is_zero : Few T → Bool
| Few.Zero => true
| _ => false

/-- `Few::is_one`. -/
def is_one : Few T → Bool
| Few.One _ => true
| _ => false

/-- `Few::is_two`. -/
def is_two : Few T → Bool
| Few.Two _ _ => true
| _ => false

/-- `Few::contains`, with the `U : PartialEq<T>` equality passed explicitly
as a boolean relation `eq`; the Rust `x == v` is `eq x v`. -/
def contains (eq : U → T → Bool) (few : Few T) (x : U) : Bool :=
  match few with
  | Few.Zero => false
  | Few.One v => eq x v
  | Few.Two a b => eq x a || eq x b

/-- `Few::map`. -/
def map (f : T → U) : Few T → Few U
| Few.Zero => Few.Zero
| Few.One v => Few.One (f v)
| Few.Two a b => Few.Two (f a) (f b)

/-- `Iterator::next` for `Few<T>`: the produced value and the state left
behind by the in-place replacement. -/
def next : Few T → Option T × Few T
| Few.Zero => (none, Few.Zero)
| Few.One v => (some v, Few.Zero)
| Few.Two a b => (some a, Few.One b)

/-- `DoubleEndedIterator::next_back` for `Few<T>`. -/
def next_back : Few T → Option T × Few T
| Few.Zero => (none, Few.Zero)
| Few.One v => (some v, Few.Zero)
| Few.Two a b => (some b, Few.One a)

/-- `ExactSizeIterator::len` for `Few<T>`. -/
def len : Few T → Nat
| Few.Zero => 0
| Few.One _ => 1
| Few.Two _ _ => 2

/-- `Default::default` for `Few<T>`. -/
def default : Few T := Few.Zero

/-- `From<T> for Few<T>`. -/
def fromValue (value : T) : Few T := Few.One value

/-- `From<(T, T)> for Few<T>`. -/
def fromPair (value : T × T) : Few T := Few.Two value.1 value.2

/-- `From<Option<T>> for Few<T>`. -/
def fromOption : Option T → Few T
| none => Few.Zero
| some value => Few.One value

/-- `From<Option<(T, T)>> for Few<T>`. -/
def fromOptionPair : Option (T × T) → Few T
| none => Few.Zero
| some (a, b) => Few.Two a b

/-- `From<(Option<T>, Option<T>)> for Few<T>`. -/
def fromOptionals : Option T × Option T → Few T
| (none, none) => Few.Zero
| (some a, none) => Few.One a
| (none, some b) => Few.One b
| (some a, some b) => Few.Two a b

/-- The comparison produced by `derive(Ord)` on `Few<T>`: discriminants are
compared in declaration order (`Zero`, `One`, `Two`), then fields
lexicographically, given a comparison `c` on `T`. -/
def cmp (c : T → T → Ordering) : Few T → Few T → Ordering
| Few.Zero, Few.Zero => Ordering.eq
| Few.Zero, Few.One _ => Ordering.lt
| Few.Zero, Few.Two _ _ => Ordering.lt
| Few.One _, Few.Zero => Ordering.gt
| Few.One a, Few.One x => c a x
| Few.One _, Few.Two _ _ => Ordering.lt
| Few.Two _ _, Few.Zero => Ordering.gt
| Few.Two _ _, Few.One _ => Ordering.gt
| Few.Two a b, Few.Two x y => (c a x).then (c b y)

/-- The clone produced by `derive(Clone)` on `Few<T>`: the same shape with
`T::clone` (passed as `cT`) applied to each payload. -/
def clone (cT : T → T) : Few T → Few T
| Few.Zero => Few.Zero
| Few.One v => Few.One (cT v)
| Few.Two a b => Few.Two (cT a) (cT b)

/-- The values contained in a `Few`, in positional order. -/
def toList : Few T → List T
| Few.Zero => []
| Few.One v => [v]
| Few.Two a b => [a, b]

/-- One production step: from the back when the flag is `true`, else from
the front. -/
def produce (fromBack : Bool) (f : Few T) : Option T × Few T :=
  if fromBack then next_back f else next f

/-- Run a sequence of production steps, recording each produced value
together with the end it came from, and the final state. -/
def drain : List Bool → Few T → List (Bool × T) × Few T
| [], f => ([], f)
| s :: rest, f =>
  match produce s f with
  | (none, f2) => drain rest f2
  | (some x, f2) =>
    let r := drain rest f2
    ((s, x) :: r.1, r.2)

/-- The values a drain produced from the front, in production order. -/
def frontsOf (l : List (Bool × T)) : List T :=
  (l.filter (fun p => !p.1)).map Prod.snd

/-- The values a drain produced from the back, in production order. -/
def backsOf (l : List (Bool × T)) : List T :=
  (l.filter (fun p => p.1)).map Prod.snd

@[simp]
theorem frontsOf_nil : frontsOf ([] : List (Bool × T)) = [] := rfl

@[simp]
theorem frontsOf_cons_false (x : T) (l : List (Bool × T)) :
    frontsOf ((false, x) :: l) = x :: frontsOf l := rfl

@[simp]
theorem frontsOf_cons_true (x : T) (l : List (Bool × T)) :
    frontsOf ((true, x) :: l) = frontsOf l := rfl

@[simp]
theorem backsOf_nil : backsOf ([] : List (Bool × T)) = [] := rfl

@[simp]
theorem backsOf_cons_false (x : T) (l : List (Bool × T)) :
    backsOf ((false, x) :: l) = backsOf l := rfl

@[simp]
theorem backsOf_cons_true (x : T) (l : List (Bool × T)) :
    backsOf ((true, x) :: l) = x :: backsOf l := rfl

/-- Draining an exhausted `Few` produces nothing and leaves it exhausted. -/
theorem drain_zero (steps : List Bool) :
    drain steps (Few.Zero : Few T) = ([], Few.Zero) := by
  induction steps with
  | nil => rfl
  | cons s rest ih => cases s <;> simp [drain, produce, next, next_back, ih]

/-- Interleaving invariant: after any sequence of front/back production
steps, the front-produced values in order, then the values still contained,
then the back-produced values in reverse production order, reconstruct the
original contents. -/
theorem drain_toList (steps : List Bool) (f : Few T) :
    frontsOf (drain steps f).1 ++ toList (drain steps f).2
      ++ (backsOf (drain steps f).1).reverse = toList f := by
  cases f with
  | Zero => simp [drain_zero, toList]
  | One v =>
    cases steps with
    | nil => simp [drain, toList]
    | cons s rest =>
      cases s <;> simp [drain, produce, next, next_back, drain_zero, toList]
  | Two a b =>
    cases steps with
    | nil => simp [drain, toList]
    | cons s rest =>
      cases s with
      | false =>
        cases rest with
        | nil => simp [drain, produce, next, toList]
        | cons s2 rest2 =>
          cases s2 <;>
            simp [drain, produce, next, next_back, drain_zero, toList]
      | true =>
        cases rest with
        | nil => simp [drain, produce, next_back, toList]
        | cons s2 rest2 =>
          cases s2 <;>
            simp [drain, produce, next, next_back, drain_zero, toList]

end Few

open Few

/-- Claim C1: draining fully via front production yields the contained
values in order (`Two a b` yields `[a, b]`, `One v` yields `[v]`, `Zero`
yields `[]`); draining fully via back production yields them in reverse;
any interleaving of front and back steps produces each contained value
exactly once with relative order preserved (the front-produced values,
the remaining values, and the back-produced values reversed reconstruct
the original contents); and each producing step shrinks the shape
(`Two a b` to `One b` from the front, `Two a b` to `One a` from the back,
`One v` to `Zero` from either end). -/
theorem few_production_order (T : Type) :
    (∀ f : Few T, (Few.drain [false, false] f).1.map Prod.snd = Few.toList f
      ∧ (Few.drain [false, false] f).2 = Few.Zero)
    ∧ (∀ f : Few T, (Few.drain [true, true] f).1.map Prod.snd = (Few.toList f).reverse
      ∧ (Few.drain [true, true] f).2 = Few.Zero)
    ∧ (∀ (steps : List Bool) (f : Few T),
        Few.frontsOf (Few.drain steps f).1 ++ Few.toList (Few.drain steps f).2
          ++ (Few.backsOf (Few.drain steps f).1).reverse = Few.toList f)
    ∧ (∀ a b : T, Few.next (Few.Two a b) = (some a, Few.One b))
    ∧ (∀ a b : T, Few.next_back (Few.Two a b) = (some b, Few.One a))
    ∧ (∀ v : T, Few.next (Few.One v) = (some v, Few.Zero))
    ∧ (∀ v : T, Few.next_back (Few.One v) = (some v, Few.Zero)) := by
  refine ⟨?_, ?_, Few.drain_toList, fun a b => rfl, fun a b => rfl,
    fun v => rfl, fun v => rfl⟩
  · intro f
    cases f <;> simp [Few.drain, Few.produce, Few.next, Few.toList]
  · intro f
    cases f <;> simp [Few.drain, Few.produce, Few.next_back, Few.toList]

/-- Claim C2: on the `Zero` shape, both front production and back
production return no value and leave the state equal to `Zero`; hence any
sequence of repeated production steps after exhaustion produces nothing
and keeps the state at `Zero` — the sequence is fused and never
resurrects values. -/
theorem few_fused (T : Type) :
    Few.next (Few.Zero : Few T) = (none, Few.Zero)
    ∧ Few.next_back (Few.Zero : Few T) = (none, Few.Zero)
    ∧ (∀ steps : List Bool,
        Few.drain steps (Few.Zero : Few T) = ([], Few.Zero)) :=
  ⟨rfl, rfl, Few.drain_zero⟩

/-- Claim C3: for every equality relation `eq` between a candidate type
and `T`, `contains` is `false` on `Zero`, equals `eq x v` on `One v`, and
equals `eq x a || eq x b` on `Two a b`; being a pure function of the
`Few` value, it has no side effects and leaves the value unchanged. -/
theorem few_contains_spec (T U : Type) (eq : U → T → Bool) (x : U) :
    Few.contains eq (Few.Zero : Few T) x = false
    ∧ (∀ v : T, Few.contains eq (Few.One v) x = eq x v)
    ∧ (∀ a b : T, Few.contains eq (Few.Two a b) x = (eq x a || eq x b)) :=
  ⟨rfl, fun v => rfl, fun a b => rfl⟩

/-- Claim C4: `map f` rebuilds the same shape with `f` applied to each
payload in positional order — `Zero` to `Zero`, `One v` to `One (f v)`,
`Two a b` to `Two (f a) (f b)` — and `map id` returns the original
value. -/
theorem few_map_spec (T U : Type) (f : T → U) :
    Few.map f (Few.Zero : Few T) = Few.Zero
    ∧ (∀ v : T, Few.map f (Few.One v) = Few.One (f v))
    ∧ (∀ a b : T, Few.map f (Few.Two a b) = Few.Two (f a) (f b))
    ∧ (∀ x : Few T, Few.map id x = x) := by
  refine ⟨rfl, fun v => rfl, fun a b => rfl, ?_⟩
  intro x
  cases x <;> rfl

/-- Claim C5: for pure `f` and `g`, mapping `f` and then `g` equals
mapping the composition of `g` after `f`. -/
theorem few_map_comp (T U V : Type) (f : T → U) (g : U → V) (x : Few T) :
    Few.map g (Few.map f x) = Few.map (g ∘ f) x := by
  cases x <;> rfl

/-- Claim C6: every conversion produces exactly the shape of the spec
table — a single value to `One`, a pair to `Two`, an optional to `Zero`
or `One`, an optional pair to `Zero` or `Two`, a pair of independent
optionals to `Zero`/`One`/`One`/`Two` by presence, and default
construction to `Zero`. -/
theorem few_conversions (T : Type) :
    (∀ v : T, Few.fromValue v = Few.One v)
    ∧ (∀ a b : T, Few.fromPair (a, b) = Few.Two a b)
    ∧ Few.fromOption (none : Option T) = Few.Zero
    ∧ (∀ v : T, Few.fromOption (some v) = Few.One v)
    ∧ Few.fromOptionPair (none : Option (T × T)) = Few.Zero
    ∧ (∀ a b : T, Few.fromOptionPair (some (a, b)) = Few.Two a b)
    ∧ Few.fromOptionals ((none, none) : Option T × Option T) = Few.Zero
    ∧ (∀ a : T, Few.fromOptionals (some a, none) = Few.One a)
    ∧ (∀ b : T, Few.fromOptionals (none, some b) = Few.One b)
    ∧ (∀ a b : T, Few.fromOptionals (some a, some b) = Few.Two a b)
    ∧ (Few.default : Few T) = Few.Zero :=
  ⟨fun v => rfl, fun a b => rfl, rfl, fun v => rfl, rfl, fun a b => rfl,
    rfl, fun a => rfl, fun b => rfl, fun a b => rfl, rfl⟩

/-- Claim C7: for every `Few` value, exactly one of `is_zero`, `is_one`,
`is_two` is true, and `len` is 0, 1, or 2 according to which predicate
holds; since this is proved for every value, it holds after every
operation, including after each production step. -/
theorem few_shape_invariant (T : Type) (f : Few T) :
    ((Few.is_zero f).toNat + (Few.is_one f).toNat + (Few.is_two f).toNat = 1)
    ∧ Few.len f
        = (if Few.is_zero f then 0 else if Few.is_one f then 1 else 2) := by
  cases f <;> simp [Few.is_zero, Few.is_one, Few.is_two, Few.len]

/-- Claim C8: the derived ordering on `Few` is shape-first (`Zero` below
`One` below `Two`) then lexicographic on payloads in declared order, as
witnessed both by the general comparison equations and by the spec's
concrete numeric examples. -/
theorem few_ordering (T : Type) (c : T → T → Ordering) :
    (Few.cmp c (Few.Zero : Few T) Few.Zero = Ordering.eq)
    ∧ (∀ x : T, Few.cmp c Few.Zero (Few.One x) = Ordering.lt)
    ∧ (∀ x y : T, Few.cmp c Few.Zero (Few.Two x y) = Ordering.lt)
    ∧ (∀ a x y : T, Few.cmp c (Few.One a) (Few.Two x y) = Ordering.lt)
    ∧ (∀ a x : T, Few.cmp c (Few.One a) (Few.One x) = c a x)
    ∧ (∀ a b x y : T,
        Few.cmp c (Few.Two a b) (Few.Two x y) = (c a x).then (c b y))
    ∧ (∀ x : T, Few.cmp c (Few.One x) Few.Zero = Ordering.gt)
    ∧ (∀ x y : T, Few.cmp c (Few.Two x y) Few.Zero = Ordering.gt)
    ∧ (∀ x y a : T, Few.cmp c (Few.Two x y) (Few.One a) = Ordering.gt)
    ∧ Few.cmp (compare : Nat → Nat → Ordering) Few.Zero (Few.One 0) = Ordering.lt
    ∧ Few.cmp (compare : Nat → Nat → Ordering) (Few.One 0) (Few.Two 0 0) = Ordering.lt
    ∧ Few.cmp (compare : Nat → Nat → Ordering) (Few.One 5) (Few.One 6) = Ordering.lt
    ∧ Few.cmp (compare : Nat → Nat → Ordering) (Few.Two 1 5) (Few.Two 1 6) = Ordering.lt
    ∧ Few.cmp (compare : Nat → Nat → Ordering) (Few.Two 1 9) (Few.Two 2 0) = Ordering.lt := by
  refine ⟨rfl, fun x => rfl, fun x y => rfl, fun a x y => rfl,
    fun a x => rfl, fun a b x y => rfl, fun x => rfl, fun x y => rfl,
    fun x y a => rfl, ?_, ?_, ?_, ?_, ?_⟩ <;> decide

/-- Claim C10: `Few` is duplicable — the derived clone rebuilds the same
shape with `T`'s clone applied to each payload, so whenever `T`'s clone
returns its argument unchanged, the clone of any value equals the
original, and draining the retained copy still yields the original
contents even though each individual value, once drained, stays
drained. -/
theorem few_clone_duplicable (T : Type) (cT : T → T) (f : Few T)
    (hc : ∀ t : T, cT t = t) :
    Few.clone cT f = f
    ∧ (Few.drain [false, false] (Few.clone cT f)).1.map Prod.snd
        = Few.toList f := by
  have hcl : Few.clone cT f = f := by
    cases f <;> simp [Few.clone, hc]
  refine ⟨hcl, ?_⟩
  rw [hcl]
  cases f <;> simp [Few.drain, Few.produce, Few.next, Few.toList]

/-- Witness for C10 at a concrete clone function and value. -/
theorem few_clone_duplicable_witness :
    Few.clone (fun t : Nat => t) (Few.Two 1 2) = Few.Two 1 2
    ∧ (Few.drain [false, false]
        (Few.clone (fun t : Nat => t) (Few.Two 1 2))).1.map Prod.snd
        = Few.toList (Few.Two 1 2) :=
  few_clone_duplicable Nat (fun t => t) (Few.Two 1 2) (fun t => rfl)
